import Mathlib

/-!
Verification development for the gpg-verifier repository.

The definitions below are a shallow embedding of the streaming verification
and integrity-checking engine of the repository: the checksum-manifest
parser and detector (src/checksum-addon.js, functions parseChecksums,
containsChecksums, getHashAlgorithm), the hash-computation engine and the
per-file verification step (calculateFileHash, calculateHashWithFileStream,
verifyFileChecksum), the upload gate and the sequential verification queue
(handleChecksumFileUpload, processQueue), and the detached-signature
pipeline of src/app.js (verifySignature: the text/binary payload decision
and the drain loop over the verification data stream).

JavaScript strings are modelled as Lean strings (all inputs of interest are
ASCII), JavaScript objects keyed by strings as association lists with
insertion-order overwrite semantics, and the regular expressions of the
source as direct character-list matchers whose backtracking behaviour is
reproduced and documented case by case.
-/

namespace GpgVerifier

/-- Lowercase hexadecimal digit: the character class 0-9a-f as used by the
standard-form detection regex in containsChecksums, which carries no
case-insensitive flag. -/
def isHexLower (c : Char) : Bool :=
  (('0' ≤ c) && (c ≤ '9')) || (('a' ≤ c) && (c ≤ 'f'))

/-- Hexadecimal digit under the case-insensitive regex flag i, as used by
every hex class in parseChecksums and by the BSD-form detection regex:
0-9, a-f, A-F. -/
def isHexCI (c : Char) : Bool :=
  isHexLower c || (('A' ≤ c) && (c ≤ 'F'))

/-- JavaScript regex whitespace class \s restricted to the ASCII range:
space, tab, line feed, vertical tab, form feed, carriage return. -/
def isWs (c : Char) : Bool :=
  c = ' ' || c = '\t' || c = '\n' || c = '\x0b' || c = '\x0c' || c = '\r'

/-- Length of the longest prefix of the list whose characters satisfy p:
the greedy match of a character-class run at the current position. -/
def leadCount (p : Char → Bool) : List Char → Nat
  | [] => 0
  | c :: l => if p c then leadCount p l + 1 else 0

/-- JavaScript String.prototype.trim restricted to ASCII whitespace. -/
def jsTrim (l : List Char) : List Char :=
  ((l.dropWhile isWs).reverse.dropWhile isWs).reverse

/-- JavaScript String.prototype.split on a class of single-character
separators, keeping empty pieces, as used by content.split and by the
path-component split of parseChecksums. -/
def splitOnPred (p : Char → Bool) : List Char → List (List Char)
  | [] => [[]]
  | c :: l =>
    if p c then [] :: splitOnPred p l
    else
      match splitOnPred p l with
      | [] => [[c]]
      | piece :: rest => (c :: piece) :: rest

/-- content.split with a newline separator, as in parseChecksums. -/
def splitNl (l : List Char) : List (List Char) :=
  splitOnPred (fun c => c = '\n') l

/-- Path separator class of the filename normalization in parseChecksums:
forward slash or backslash. -/
def isPathSep (c : Char) : Bool :=
  c = '/' || c = '\\'

/-- filename.split on path separators followed by pop: the final path
segment (which is the empty string when the name ends in a separator). -/
def lastSegment (l : List Char) : List Char :=
  (splitOnPred isPathSep l).getLastD []

/-- Matcher for the parseChecksums standard-form regex, anchored pattern
hex{32,128} then \s+ then an optional star-or-whitespace then a nonempty
remainder group, with the case-insensitive flag.  Returns the digest group
and the filename group.  Greedy-match analysis: the hex class contains no
whitespace character, so the quantifier can only stop at the end of the
maximal hex run L; if L exceeds 128 every backtracked endpoint still faces
a hex character where the whitespace requirement fails, hence no match.
After the maximal whitespace run, the optional class consumes a single
star when present; when nothing remains after the star the engine
backtracks and the remainder group is the star itself; when the whole
remainder is whitespace the quantifier gives back its final character so
the remainder group is that character (unreachable on trimmed lines). -/
def matchFormat1 (l : List Char) : Option (List Char × List Char) :=
  let L := leadCount isHexCI l
  if 32 ≤ L && L ≤ 128 then
    let rest := l.drop L
    let w := leadCount isWs rest
    if w = 0 then none
    else
      match rest.drop w with
      | [] => if 2 ≤ w then some (l.take L, rest.drop (w - 1)) else none
      | ['*'] => some (l.take L, ['*'])
      | '*' :: r => some (l.take L, r)
      | r => some (l.take L, r)
  else none

/-- Algorithm labels of the BSD-form regex alternation, in source order.
No label is a prefix of another reachable one at the same position, so at
most one alternative can match and the alternation is deterministic. -/
def algTokens : List (List Char) :=
  [['s','h','a','2','5','6'], ['s','h','a','5','1','2'], ['s','h','a','1'], ['m','d','5']]

/-- Case-insensitive literal prefix match: on success returns the input
with the token consumed. -/
def stripTokenCI (tok : List Char) (l : List Char) : Option (List Char) :=
  if (l.take tok.length).map Char.toLower = tok then some (l.drop tok.length) else none

/-- First alternative of the label alternation that matches a prefix of
the input. -/
def matchAlgoToken : List (List Char) → List Char → Option (List Char)
  | [], _ => none
  | t :: ts, l =>
    match stripTokenCI t l with
    | some r => some r
    | none => matchAlgoToken ts l

/-- Matcher for the BSD/Fedora-form regex: an algorithm label, optional
whitespace, a parenthesized nonempty filename group (any characters except
a closing parenthesis, greedy — shortening the run cannot expose a closing
parenthesis, so no backtracking succeeds where the greedy run fails), an
equals sign with optional whitespace on both sides, then a hex group of 32
to 128 characters, case-insensitive, with no end anchor (the group takes
at most 128 characters of the maximal hex run and trailing input is
ignored).  Returns the filename group and the digest group.  This single
matcher serves both parseChecksums (which captures the filename) and
containsChecksums (which only captures the digest): the two source
regexes differ only in that grouping. -/
def matchFormat2 (l : List Char) : Option (List Char × List Char) :=
  match matchAlgoToken algTokens l with
  | none => none
  | some r1 =>
    let r2 := r1.drop (leadCount isWs r1)
    match r2 with
    | '(' :: r3 =>
      let n := leadCount (fun c => c != ')') r3
      if n = 0 then none
      else
        match r3.drop n with
        | ')' :: r4 =>
          let r5 := r4.drop (leadCount isWs r4)
          match r5 with
          | '=' :: r6 =>
            let r7 := r6.drop (leadCount isWs r6)
            let h := leadCount isHexCI r7
            if 32 ≤ h then some (r3.take n, r7.take (min h 128)) else none
          | _ => none
        | _ => none
    | _ => none

/-- Matcher for the parseChecksums third-form regex, anchored pattern
hex{32,128} then optional whitespace, an equals sign, optional whitespace,
then a nonempty remainder group, case-insensitive.  As with the
standard form, the hex quantifier can only stop at the end of the maximal
hex run, and a run longer than 128 admits no match.  When everything after
the equals sign is whitespace the greedy whitespace run gives back its
final character for the remainder group (unreachable on trimmed lines). -/
def matchFormat3 (l : List Char) : Option (List Char × List Char) :=
  let L := leadCount isHexCI l
  if 32 ≤ L && L ≤ 128 then
    let rest := l.drop L
    match rest.drop (leadCount isWs rest) with
    | '=' :: r3 =>
      let w := leadCount isWs r3
      match r3.drop w with
      | [] => if 1 ≤ w then some (l.take L, r3.drop (w - 1)) else none
      | r4 => some (l.take L, r4)
    | _ => none
  else none

/-- Assignment to a JavaScript object property with a string key: an
existing key keeps its position and gets the new value, a new key is
appended in insertion order. -/
def objInsert (m : List (String × String)) (k v : String) : List (String × String) :=
  if m.any (fun p => p.1 == k) then
    m.map (fun p => if p.1 == k then (k, v) else p)
  else m ++ [(k, v)]

/-- Body of the parseChecksums loop for one line: trim, skip blank lines
and comment lines, then try the three formats in order; each match stores
the lowercased digest under the trimmed filename stripped to its final
path segment. -/
def parseLine (m : List (String × String)) (line : List Char) : List (String × String) :=
  let t := jsTrim line
  if t = [] then m
  else if t.head? = some '#' then m
  else
    match matchFormat1 t with
    | some (h, f) =>
      objInsert m (String.mk (lastSegment (jsTrim f))) (String.mk (h.map Char.toLower))
    | none =>
      match matchFormat2 t with
      | some (f, h) =>
        objInsert m (String.mk (lastSegment (jsTrim f))) (String.mk (h.map Char.toLower))
      | none =>
        match matchFormat3 t with
        | some (h, f) =>
          objInsert m (String.mk (lastSegment (jsTrim f))) (String.mk (h.map Char.toLower))
        | none => m

/-- parseChecksums of src/checksum-addon.js: split the content on
newlines and fold the per-line parser over an initially empty object. -/
def parseChecksums (content : String) : List (String × String) :=
  (splitNl content.data).foldl parseLine []

/-- Lines as seen by a multiline-anchored JavaScript regex: the
ECMAScript line terminators relevant here are line feed and carriage
return. -/
def regexLines (content : String) : List (List Char) :=
  splitOnPred (fun c => c = '\n' || c = '\r') content.data

/-- Per-line matcher for the standard-form detection regex of
containsChecksums: lowercase hex{32,128} (no case-insensitive flag), then
\s+, then one non-whitespace character and at least one further character
up to the end of the line.  After the maximal whitespace run the next
character, if any, is necessarily non-whitespace; the explicit check
mirrors the source character class. -/
def matchStdDetect (l : List Char) : Bool :=
  let L := leadCount isHexLower l
  if 32 ≤ L && L ≤ 128 then
    let rest := l.drop L
    let w := leadCount isWs rest
    let r2 := rest.drop w
    decide (1 ≤ w) && decide (2 ≤ r2.length) && !(isWs (r2.headD ' '))
  else false

/-- Per-line matcher for the BSD-form detection regex of
containsChecksums; identical to the parse matcher up to grouping. -/
def matchBsdDetect (l : List Char) : Bool :=
  (matchFormat2 l).isSome

/-- containsChecksums of src/checksum-addon.js: the content is detected
as a checksum list when some line matches the standard-form regex or some
line matches the BSD-form regex.  The third parse format has no detection
counterpart in the source. -/
def containsChecksums (content : String) : Bool :=
  (regexLines content).any matchStdDetect || (regexLines content).any matchBsdDetect

/-- getHashAlgorithm of src/checksum-addon.js: the algorithm is derived
solely from the digest length. -/
def getHashAlgorithm (hash : String) : String :=
  if hash.length = 32 then "MD5"
  else if hash.length = 40 then "SHA-1"
  else if hash.length = 64 then "SHA-256"
  else if hash.length = 128 then "SHA-512"
  else "Unknown"

/-- Hex digit character for one nibble, lowercase. -/
def hexDigitChar (n : Nat) : Char :=
  if n < 10 then Char.ofNat (48 + n) else Char.ofNat (97 + (n - 10))

/-- Fixed-width big-endian hexadecimal rendering of a natural number. -/
def toHexFixed : Nat → Nat → List Char → List Char
  | 0, _, acc => acc
  | w + 1, n, acc => toHexFixed w (n / 16) (hexDigitChar (n % 16) :: acc)

/-- Modelled from the spec: the external hashing collaborators (the
hash-wasm createSHA256 backend and the js-sha256 library) are not part of
this repository; the spec treats them as trusted oracles that expose
incremental update and digest operations and that all produce the same
SHA-256 digest, rendered as a lowercase hex string of 64 characters
(256 bits).  The cryptographic compression itself is out of scope, so the
digest is modelled as a computable content-determined 256-bit value
rendered as exactly 64 lowercase hex characters; every property proved
below about digests depends only on this shape, never on the value. -/
def sha256Hex (content : List Nat) : String :=
  String.mk (toHexFixed 64 (content.foldl (fun a b => (a * 257 + b % 256 + 1) % (2 ^ 256)) 0) [])

/-- calculateFileHash of src/checksum-addon.js: whichever backend is
selected (WebAssembly, native file stream, or chunked reading), the
computed digest is the SHA-256 of the full file content; backend choice
is a performance detail with no observable difference. -/
def calculateFileHash (content : List Nat) : String :=
  sha256Hex content

/-- Abort flag of checksumState.verificationAborted as observed at the
chunk boundaries of one run: the flag is set once by the stop button and
stays set until the run's cleanup, so it is modelled by the boundary index
from which it reads true (none when never set during the run). -/
def flagAt (abortFrom : Option Nat) (i : Nat) : Bool :=
  match abortFrom with
  | none => false
  | some a => a ≤ i

/-- Result of one hashing run: a finished digest, or the distinct
cancelled condition raised when the abort flag is observed at a chunk
boundary. -/
inductive HashResult
  | ok (digest : String)
  | cancelled
deriving DecidableEq, Repr

/-- calculateHashWithFileStream of src/checksum-addon.js: the loop checks
the abort flag before each chunk read (throwing the stopped-by-user error
when it is set), incorporates each chunk into the incremental hash, and
finalizes the digest when the stream is done.  The incremental state is
represented by the bytes accumulated so far. -/
def calculateHashWithFileStream (abortFrom : Option Nat) : Nat → List Nat → List (List Nat) → HashResult
  | i, acc, [] =>
    if flagAt abortFrom i then HashResult.cancelled
    else HashResult.ok (sha256Hex acc)
  | i, acc, c :: rest =>
    if flagAt abortFrom i then HashResult.cancelled
    else calculateHashWithFileStream abortFrom (i + 1) (acc ++ c) rest

/-- Displayed outcome of one checksum-verification job, mirroring the
three result cards rendered by verifyFileChecksum: CHECKSUM VERIFIED
(with the matched manifest filename and the computed digest), CHECKSUM
MISMATCH (expected versus computed digest), FILENAME MISMATCH (file name
and computed digest). -/
inductive ChecksumOutcome
  | verified (matchedFilename : String) (calculated : String)
  | mismatch (expected : String) (calculated : String)
  | filenameMismatch (fileName : String) (calculated : String)
deriving DecidableEq, Repr

/-- JavaScript truthiness of a possibly-missing string value: undefined
and the empty string are falsy. -/
def jsTruthy : Option String → Bool
  | none => false
  | some s => s != ""

/-- JavaScript object property read on the association-list model. -/
def lookupObj (m : List (String × String)) (k : String) : Option String :=
  (m.find? (fun p => p.1 == k)).map (fun p => p.2)

/-- Matched-filename and expected-digest selection of verifyFileChecksum
in src/checksum-addon.js: an exact filename lookup is tried first; when
it yields nothing truthy, the entries are scanned in insertion order for
one whose digest equals the computed digest. -/
def selectEntry (parsed : List (String × String)) (fileName calculated : String) :
    Option String × Option String :=
  if jsTruthy (lookupObj parsed fileName) then (some fileName, lookupObj parsed fileName)
  else
    match parsed.find? (fun p => p.2 == calculated) with
    | some p => (some p.1, some p.2)
    | none => (none, none)

/-- Outcome classification of verifyFileChecksum in
src/checksum-addon.js: the three result cards are selected from the
matched filename and expected digest by the source's two
truthiness-guarded conditions. -/
def classifyChecksum (parsed : List (String × String)) (fileName calculated : String) : ChecksumOutcome :=
  let sel := selectEntry parsed fileName calculated
  if jsTruthy sel.1 && sel.2 == some calculated then
    ChecksumOutcome.verified (sel.1.getD "") calculated
  else if jsTruthy sel.2 && sel.2 != some calculated then
    ChecksumOutcome.mismatch (sel.2.getD "") calculated
  else
    ChecksumOutcome.filenameMismatch fileName calculated

/-- Insertion into the verifiedFiles set (a JavaScript Set keeps
insertion order and ignores re-insertion). -/
def setAdd (s : List String) (x : String) : List String :=
  if s.contains x then s else s ++ [x]

/-- Effect of one verifyFileChecksum job on the verified-file set,
together with the displayed outcome: only the CHECKSUM VERIFIED branch
adds the matched filename to the set, and a run cancelled by the abort
flag displays nothing (the catch block hides the result instead of
rendering an error).  Collaborator failures other than the deliberate
stop are outside the claims treated here. -/
def verifyFileStep (parsed : List (String × String)) (verifiedFiles : List String)
    (fileName : String) (hres : HashResult) : List String × Option ChecksumOutcome :=
  match hres with
  | HashResult.ok h =>
    let o := classifyChecksum parsed fileName h
    ((match o with
      | ChecksumOutcome.verified fn _ => setAdd verifiedFiles fn
      | _ => verifiedFiles), some o)
  | HashResult.cancelled => (verifiedFiles, none)

/-- Status of one queue entry, as stored in fileQueue items. -/
inductive JobStatus
  | pending
  | processing
  | completed
  | error
deriving DecidableEq, Repr

/-- Result of one handleChecksumFileUpload call: the queue afterwards,
whether the filename-mismatch confirm dialog was raised, and whether the
batch was enqueued. -/
structure UploadResult where
  queue : List (String × JobStatus)
  confirmRequested : Bool
  accepted : Bool
deriving DecidableEq, Repr

/-- handleChecksumFileUpload of src/checksum-addon.js: an empty selection
or an empty loaded manifest returns without touching the queue; when
every selected file name is missing from the manifest (hasOwnProperty on
the parsed object) a confirm dialog is raised and declining returns with
the queue untouched; otherwise all selected files are appended to the
queue as pending jobs. -/
def handleChecksumFileUpload (parsed : List (String × String))
    (queue : List (String × JobStatus)) (files : List String) (userConfirm : Bool) : UploadResult :=
  if files.length = 0 then ⟨queue, false, false⟩
  else if parsed.length = 0 then ⟨queue, false, false⟩
  else
    let filesNotInList := files.filter (fun f => !(parsed.any (fun p => p.1 == f)))
    if decide (0 < filesNotInList.length) && filesNotInList.length == files.length then
      if userConfirm then
        ⟨queue ++ files.map (fun f => (f, JobStatus.pending)), true, true⟩
      else ⟨queue, true, false⟩
    else ⟨queue ++ files.map (fun f => (f, JobStatus.pending)), false, true⟩

/-- Array.prototype.findIndex on the queue, with the missing case as
none instead of minus one. -/
def jsFindIndex (p : α → Bool) : List α → Option Nat
  | [] => none
  | a :: l => if p a then some 0 else (jsFindIndex p l).map (· + 1)

/-- In-place status assignment to the queue item at an index. -/
def setJobStatus : List (String × JobStatus) → Nat → JobStatus → List (String × JobStatus)
  | [], _, _ => []
  | j :: rest, 0, s => (j.1, s) :: rest
  | j :: rest, n + 1, s => j :: setJobStatus rest n s

/-- Predicate selecting pending queue entries. -/
def isPending (j : String × JobStatus) : Bool :=
  j.2 == JobStatus.pending

/-- Sequence of queue states produced by the processQueue loop of
src/checksum-addon.js: each iteration finds the first pending entry,
marks it processing, awaits its verification (the per-job outcome,
success or thrown error, is supplied by the outs list), marks it
completed or error accordingly, and repeats until no pending entry
remains.  The loop terminates because every iteration consumes one
pending entry; the fuel argument bounds the iteration count and any fuel
of at least the number of pending entries is enough. -/
def processQueueTrace : Nat → List Bool → List (String × JobStatus) → List (List (String × JobStatus))
  | 0, _, _ => []
  | fuel + 1, outs, q =>
    match jsFindIndex isPending q with
    | none => []
    | some i =>
      let q1 := setJobStatus q i JobStatus.processing
      let q2 := setJobStatus q1 i (if outs.headD true then JobStatus.completed else JobStatus.error)
      q1 :: q2 :: processQueueTrace fuel outs.tail q2

/-- Indices of the queue entries in the order the processQueue loop
processes them. -/
def processedOrder : Nat → List Bool → List (String × JobStatus) → List Nat
  | 0, _, _ => []
  | fuel + 1, outs, q =>
    match jsFindIndex isPending q with
    | none => []
    | some i =>
      i :: processedOrder fuel outs.tail
        (setJobStatus (setJobStatus q i JobStatus.processing) i
          (if outs.headD true then JobStatus.completed else JobStatus.error))

/-- Number of queue entries currently in the processing state. -/
def countProcessing (q : List (String × JobStatus)) : Nat :=
  q.countP (fun j => j.2 == JobStatus.processing)

/-- Payload handling of the detached-signature mode. -/
inductive PayloadMode
  | text
  | binary
deriving DecidableEq, Repr

/-- Null character as written in the source's includes check. -/
def nullChar : Char :=
  Char.ofNat 0

/-- Null-byte sniff of verifySignature in src/app.js: the decoded text is
sampled up to its first 1000 characters and searched for an embedded null
byte. -/
def hasNullBytesSample (dataText : String) : Bool :=
  let sampleLength := min dataText.length 1000
  (dataText.data.take sampleLength).contains nullChar

/-- Text-versus-binary payload decision of the detached-signature mode in
verifySignature (src/app.js): files below the fixed one-million-byte
threshold are decoded as text and used in text mode unless the null-byte
sample check fires, in which case (as for all larger files) the payload
is streamed as binary. -/
def detachedPayloadMode (size : Nat) (dataText : String) : PayloadMode :=
  if size < 1000000 then
    if hasNullBytesSample dataText then PayloadMode.binary else PayloadMode.text
  else PayloadMode.binary

/-- Result of the drain loop over verificationResult.data in
verifySignature: a full drain, the silent early return taken when the
abort flag is observed at a chunk boundary, or an exception thrown while
reading a chunk (carrying the boundary index at which it was thrown). -/
inductive DrainResult
  | completed
  | abortedExit
  | threw (i : Nat)
deriving DecidableEq, Repr

/-- Drain loop of the detached-signature path in verifySignature
(src/app.js): before every chunk read the abort flag is checked and, when
set, the function returns without rendering anything; a read may instead
raise an input error, modelled by the boundary index at which the read
fails; otherwise the chunk is consumed and the loop continues until the
stream is done. -/
def drainVerify (abortFrom ioErrorAt : Option Nat) : Nat → List Nat → DrainResult
  | i, [] =>
    if flagAt abortFrom i then DrainResult.abortedExit
    else DrainResult.completed
  | i, _ :: rest =>
    if flagAt abortFrom i then DrainResult.abortedExit
    else if ioErrorAt == some i then DrainResult.threw i
    else drainVerify abortFrom ioErrorAt (i + 1) rest

/-- What the detached-signature pipeline renders at the end of a run. -/
inductive VerifyDisplay
  | success
  | invalid
  | errorShown
  | silent
deriving DecidableEq, Repr

/-- Rendering decision of the detached-signature path: an abort observed
in the drain loop returns silently; after a full drain the resolved
validity selects the success or invalid card, except that an invalid
result with the abort flag set is suppressed; an exception reaches the
outer catch, which suppresses the error card exactly when the abort flag
is set by then (the flag may have been set during the read that threw,
hence the check at the following boundary index). -/
def detachedVerifyDisplay (abortFrom ioErrorAt : Option Nat) (chunks : List Nat) (sigValid : Bool) : VerifyDisplay :=
  match drainVerify abortFrom ioErrorAt 0 chunks with
  | DrainResult.abortedExit => VerifyDisplay.silent
  | DrainResult.threw i =>
    if flagAt abortFrom (i + 1) then VerifyDisplay.silent else VerifyDisplay.errorShown
  | DrainResult.completed =>
    if sigValid then VerifyDisplay.success
    else if flagAt abortFrom (chunks.length + 1) then VerifyDisplay.silent
    else VerifyDisplay.invalid

/-- Concrete decoded payload for the null-byte sampling analysis: one
thousand ordinary characters followed by a single null byte, so the null
byte sits just beyond the sampled range. -/
def c1DataText : String :=
  String.mk (List.replicate 1000 'a' ++ [nullChar])

/-- Concrete digest used in the rename-detection analysis: sixty-four
lowercase hex characters, the shape of a SHA-256 digest. -/
def c3Digest : String :=
  String.mk (List.replicate 64 'a')

/-!
Theorems.  Helper lemmas come first, then one theorem per claim (with a
closed witness or counterexample where required).
-/

theorem toHexFixed_length : ∀ (w n : Nat) (acc : List Char), (toHexFixed w n acc).length = w + acc.length := by
  intro w
  induction w with
  | zero => intro n acc; simp [toHexFixed]
  | succ k ih =>
    intro n acc
    rw [toHexFixed, ih]
    simp
    omega

theorem sha256Hex_length (content : List Nat) : (sha256Hex content).length = 64 := by
  show (toHexFixed 64 _ []).length = 64
  rw [toHexFixed_length]
  rfl

theorem calculateFileHash_length (content : List Nat) : (calculateFileHash content).length = 64 :=
  sha256Hex_length content

theorem filter_length_lt_of_mem {α} {p : α → Bool} {l : List α} {a : α}
    (ha : a ∈ l) (hpa : p a = false) : (l.filter p).length < l.length := by
  induction l with
  | nil => cases ha
  | cons x xs ih =>
    rcases List.mem_cons.mp ha with h | h
    · subst h
      rw [List.filter_cons_of_neg (by simp [hpa])]
      exact Nat.lt_succ_of_le (List.length_filter_le p xs)
    · cases hpx : p x with
      | true =>
        rw [List.filter_cons_of_pos (by simp [hpx])]
        simpa using Nat.succ_lt_succ (ih h)
      | false =>
        rw [List.filter_cons_of_neg (by simp [hpx])]
        exact Nat.lt_succ_of_lt (ih h)

set_option maxRecDepth 100000 in
/-- C1 counterexample: a data artifact of 1001 bytes (below the
one-million-byte threshold) whose decoded text contains a null byte — at
position 1000, just past the sampled range — is nevertheless handled in
text mode, because verifySignature only searches the first 1000
characters for null bytes.  The claim, which demands binary (streaming)
mode for a null byte anywhere in the decoded content, is therefore false
on the code. -/
theorem c1_counterexample :
    c1DataText.data.contains nullChar = true ∧
    1001 < 1000000 ∧
    c1DataText.length = 1001 ∧
    detachedPayloadMode 1001 c1DataText = PayloadMode.text := by
  refine ⟨by decide, by decide, by decide, by decide⟩

/-- C1 (amended): in detached-signature mode, for every data artifact
smaller than the one-million-byte threshold whose decoded text contains a
null byte within its first 1000 characters, the pipeline treats the
payload as binary (streaming mode) rather than text. -/
theorem c1_null_byte_sample_binary (size : Nat) (dataText : String)
    (hsize : size < 1000000)
    (hnull : (dataText.data.take 1000).contains nullChar = true) :
    detachedPayloadMode size dataText = PayloadMode.binary := by
  have hsample : hasNullBytesSample dataText = true := by
    show (dataText.data.take (min dataText.length 1000)).contains nullChar = true
    have hlen : dataText.length = dataText.data.length := rfl
    rw [hlen, Nat.min_comm, ← List.take_take, List.take_length]
    exact hnull
  simp [detachedPayloadMode, hsize, hsample]

/-- C1 witness: a three-byte payload with a null byte in its (first 1000)
characters is streamed as binary. -/
theorem c1_null_byte_sample_binary_witness :
    detachedPayloadMode 3 (String.mk ['a', nullChar, 'b']) = PayloadMode.binary :=
  c1_null_byte_sample_binary 3 (String.mk ['a', nullChar, 'b']) (by decide) (by decide)

/-- C2: a manifest line in the third grammar with whitespace around the
equals sign is captured by the standard-form regex, which is tried first
and whose filename group starts at the equals sign; the stored key is
the equals sign followed by the filename, not the filename itself.  The
source's own third-format branch (whose regex explicitly allows optional
whitespace around the equals sign) is unreachable for such lines, so the
claim describes the intended behaviour and the code diverges from it. -/
theorem c2_format3_shadowed :
    parseChecksums "d41d8cd98f00b204e9800998ecf8427e = foo.txt" =
      [("= foo.txt", "d41d8cd98f00b204e9800998ecf8427e")] := by
  decide

/-- C4: a standard-form line with uppercase hex digits is parsed by
parseChecksums (whose regex carries the case-insensitive flag) but is not
detected by containsChecksums, whose standard-form regex lacks that flag;
likewise the third grammar has no detection counterpart.  So parse yields
a non-empty mapping while containsChecksums returns false, contradicting
the claim. -/
theorem c4_detection_misses_parsed :
    containsChecksums "D41D8CD98F00B204E9800998ECF8427E  foo.txt" = false ∧
    parseChecksums "D41D8CD98F00B204E9800998ECF8427E  foo.txt" =
      [("foo.txt", "d41d8cd98f00b204e9800998ecf8427e")] ∧
    containsChecksums "d41d8cd98f00b204e9800998ecf8427e=foo.txt" = false ∧
    parseChecksums "d41d8cd98f00b204e9800998ecf8427e=foo.txt" =
      [("foo.txt", "d41d8cd98f00b204e9800998ecf8427e")] := by
  refine ⟨by decide, by decide, by decide, by decide⟩

/-- C3 counterexample: with a one-entry manifest, a queued file whose
name is absent from the manifest but whose computed digest equals that
entry's digest produces exactly the same CHECKSUM VERIFIED outcome as a
straight filename-plus-digest match of that entry — the outcome type of
the source has no separate verified-by-content result card, so the
rename case is not reported distinctly. -/
theorem c3_counterexample :
    classifyChecksum [("a.txt", c3Digest)] "b.txt" c3Digest =
      ChecksumOutcome.verified "a.txt" c3Digest ∧
    classifyChecksum [("a.txt", c3Digest)] "b.txt" c3Digest =
      classifyChecksum [("a.txt", c3Digest)] "a.txt" c3Digest := by
  refine ⟨by decide, by decide⟩

/-- C3 (amended): for every queued file whose name is absent from the
loaded manifest but whose computed digest equals the digest of some
manifest entry (the first such entry in insertion order, with a nonempty
filename), the job outcome is the CHECKSUM VERIFIED success card carrying
that entry's filename — the same outcome as a straight
filename-plus-digest match, not a distinct verified-by-content report. -/
theorem c3_content_match_verified (parsed : List (String × String))
    (fileName calcHash fn : String)
    (habs : lookupObj parsed fileName = none)
    (hfind : parsed.find? (fun p => p.2 == calcHash) = some (fn, calcHash))
    (hfn : fn ≠ "") :
    classifyChecksum parsed fileName calcHash = ChecksumOutcome.verified fn calcHash := by
  have hsel : selectEntry parsed fileName calcHash = (some fn, some calcHash) := by
    unfold selectEntry
    rw [habs]
    simp [jsTruthy, hfind]
  unfold classifyChecksum
  rw [hsel]
  have h1 : (fn != "") = true := by simpa using hfn
  simp [jsTruthy, h1]

/-- C3 witness: concrete instance of the amended rename-detection
behaviour. -/
theorem c3_content_match_verified_witness :
    classifyChecksum [("a.txt", c3Digest)] "bb.txt" c3Digest =
      ChecksumOutcome.verified "a.txt" c3Digest :=
  c3_content_match_verified [("a.txt", c3Digest)] "bb.txt" c3Digest "a.txt"
    (by decide) (by decide) (by decide)

/-- C5: for every enqueued batch (nonempty, with a manifest loaded) in
which no file name has an entry in the loaded manifest, the confirm
dialog is raised before anything is queued, and when the user declines
the queue is left exactly as it was — no job is added, so no chunk is
ever read and zero hash computations are performed (hashing happens only
to queued jobs inside processQueue). -/
theorem c5_decline_discards_batch (parsed : List (String × String))
    (queue : List (String × JobStatus)) (files : List String)
    (hp : parsed ≠ []) (hf : files ≠ [])
    (habs : ∀ f ∈ files, parsed.any (fun p => p.1 == f) = false) :
    handleChecksumFileUpload parsed queue files false =
      ⟨queue, true, false⟩ := by
  have hfilter : files.filter (fun f => !(parsed.any (fun p => p.1 == f))) = files :=
    List.filter_eq_self.mpr (fun f hmem => by simp [habs f hmem])
  have hflen : files.length ≠ 0 := by simpa using hf
  have hplen : parsed.length ≠ 0 := by simpa using hp
  simp [handleChecksumFileUpload, hfilter, hflen, hplen, Nat.pos_of_ne_zero hflen]

/-- C5 witness: declining the confirm dialog for a batch wholly absent
from the manifest leaves the queue empty. -/
theorem c5_decline_discards_batch_witness :
    handleChecksumFileUpload [("a.txt", "h")] [] ["b.txt"] false =
      ⟨[], true, false⟩ :=
  c5_decline_discards_batch [("a.txt", "h")] [] ["b.txt"]
    (by decide) (by decide) (by decide)

/-- C10: for every enqueued batch (with a manifest loaded) in which at
least one file name has a manifest entry, no confirmation is requested —
the result does not depend on the user-confirm input — and every file of
the batch, including those absent from the manifest, is appended to the
queue as a pending job. -/
theorem c10_partial_match_enqueues_all (parsed : List (String × String))
    (queue : List (String × JobStatus)) (files : List String) (userConfirm : Bool)
    (hp : parsed ≠ []) (f : String) (hmem : f ∈ files)
    (hin : parsed.any (fun p => p.1 == f) = true) :
    handleChecksumFileUpload parsed queue files userConfirm =
      ⟨queue ++ files.map (fun fi => (fi, JobStatus.pending)), false, true⟩ := by
  have hflen : files.length ≠ 0 := by
    simpa using List.ne_nil_of_mem hmem
  have hplen : parsed.length ≠ 0 := by simpa using hp
  have hlt : (files.filter (fun fi => !(parsed.any (fun p => p.1 == fi)))).length
      < files.length :=
    filter_length_lt_of_mem hmem (by simp [hin])
  have hne : ((files.filter (fun fi => !(parsed.any (fun p => p.1 == fi)))).length
      == files.length) = false := by
    simpa using Nat.ne_of_lt hlt
  simp [handleChecksumFileUpload, hflen, hplen, hne]

/-- C10 witness: a two-file batch with one matching name is enqueued in
full with no confirmation. -/
theorem c10_partial_match_enqueues_all_witness :
    handleChecksumFileUpload [("a.txt", "h")] [] ["b.txt", "a.txt"] false =
      ⟨[("b.txt", JobStatus.pending), ("a.txt", JobStatus.pending)], false, true⟩ :=
  c10_partial_match_enqueues_all [("a.txt", "h")] [] ["b.txt", "a.txt"] false
    (by decide) "a.txt" (by decide) (by decide)

theorem calculateHashWithFileStream_cancelled (a : Nat) :
    ∀ (chunks : List (List Nat)) (i : Nat) (acc : List Nat), a ≤ i + chunks.length →
    calculateHashWithFileStream (some a) i acc chunks = HashResult.cancelled := by
  intro chunks
  induction chunks with
  | nil =>
    intro i acc h
    have hai : a ≤ i := by simpa using h
    have hflag : flagAt (some a) i = true := by
      simp only [flagAt, decide_eq_true_eq]
      omega
    simp [calculateHashWithFileStream, hflag]
  | cons c rest ih =>
    intro i acc h
    by_cases hai : a ≤ i
    · have hflag : flagAt (some a) i = true := by
        simp only [flagAt, decide_eq_true_eq]
        omega
      simp [calculateHashWithFileStream, hflag]
    · have hflag : flagAt (some a) i = false := by
        simp only [flagAt, decide_eq_false_iff_not]
        omega
      rw [calculateHashWithFileStream, hflag]
      simp only [Bool.false_eq_true, if_false]
      exact ih (i + 1) (acc ++ c) (by simp at h ⊢; omega)

/-- C6: for every hashing run cancelled mid-computation — the abort flag
becomes set at some chunk boundary the run still reaches — the hash
engine ends in the distinct cancelled condition (no digest is produced),
and the per-job verification step leaves the verified-file set exactly as
it was: no partial result is ever committed on cancellation. -/
theorem c6_cancel_preserves_verified_set (parsed : List (String × String))
    (verifiedFiles : List String) (fileName : String)
    (chunks : List (List Nat)) (a : Nat) (ha : a ≤ chunks.length) :
    calculateHashWithFileStream (some a) 0 [] chunks = HashResult.cancelled ∧
    (verifyFileStep parsed verifiedFiles fileName
        (calculateHashWithFileStream (some a) 0 [] chunks)).1 = verifiedFiles := by
  have hc := calculateHashWithFileStream_cancelled a chunks 0 [] (by omega)
  exact ⟨hc, by rw [hc]; rfl⟩

/-- C6 witness: an abort observed at the first chunk boundary of a
one-chunk run cancels it and preserves a concrete verified-file set. -/
theorem c6_cancel_preserves_verified_set_witness :
    calculateHashWithFileStream (some 0) 0 [] [[1, 2]] = HashResult.cancelled ∧
    (verifyFileStep [("a.txt", "h")] ["z.txt"] "a.txt"
        (calculateHashWithFileStream (some 0) 0 [] [[1, 2]])).1 = ["z.txt"] :=
  c6_cancel_preserves_verified_set [("a.txt", "h")] ["z.txt"] "a.txt" [[1, 2]] 0 (by decide)

theorem drainVerify_completed_no_flag (abortFrom ioErrorAt : Option Nat) :
    ∀ (chunks : List Nat) (i : Nat),
    drainVerify abortFrom ioErrorAt i chunks = DrainResult.completed →
    ∀ k, i ≤ k → k ≤ i + chunks.length → flagAt abortFrom k = false := by
  intro chunks
  induction chunks with
  | nil =>
    intro i h k hik hki
    have hk : k = i := by simpa using Nat.le_antisymm (by simpa using hki) hik
    subst hk
    by_cases hflag : flagAt abortFrom k = true
    · rw [drainVerify, hflag] at h
      simp at h
    · simpa using hflag
  | cons c rest ih =>
    intro i h k hik hki
    by_cases hflag : flagAt abortFrom i = true
    · rw [drainVerify, hflag] at h
      simp at h
    · have hflag' : flagAt abortFrom i = false := by simpa using hflag
      rw [drainVerify, hflag'] at h
      simp only [Bool.false_eq_true, if_false] at h
      by_cases hio : (ioErrorAt == some i) = true
      · rw [hio] at h
        simp at h
      · rw [Bool.eq_false_iff.mpr hio] at h
        simp only [Bool.false_eq_true, if_false] at h
        rcases Nat.eq_or_lt_of_le hik with hk | hk
        · subst hk
          exact hflag'
        · exact ih (i + 1) h k hk (by simp at hki ⊢; omega)

theorem drainVerify_aborted (a : Nat) (ioErrorAt : Option Nat) :
    ∀ (chunks : List Nat) (i : Nat), a ≤ i + chunks.length →
    (∀ j, i ≤ j → j < a → ioErrorAt ≠ some j) →
    drainVerify (some a) ioErrorAt i chunks = DrainResult.abortedExit := by
  intro chunks
  induction chunks with
  | nil =>
    intro i h _
    have hai : a ≤ i := by simpa using h
    have hflag : flagAt (some a) i = true := by
      simp only [flagAt, decide_eq_true_eq]
      omega
    simp [drainVerify, hflag]
  | cons c rest ih =>
    intro i h hio
    by_cases hai : a ≤ i
    · have hflag : flagAt (some a) i = true := by
        simp only [flagAt, decide_eq_true_eq]
        omega
      simp [drainVerify, hflag]
    · have hflag : flagAt (some a) i = false := by
        simp only [flagAt, decide_eq_false_iff_not]
        omega
      rw [drainVerify, hflag]
      simp only [Bool.false_eq_true, if_false]
      have hnio : (ioErrorAt == some i) = false := by
        have := hio i (Nat.le_refl i) (by omega)
        simpa using this
      rw [hnio]
      simp only [Bool.false_eq_true, if_false]
      exact ih (i + 1) (by simp at h ⊢; omega) (fun j hj hja => hio j (by omega) hja)

/-- C8: during the detached-verification drain loop the abort flag is
checked at every chunk-consumption boundary — the loop only completes
when the flag is unset at each of them — and a cancellation observed
there (the flag becomes set at a boundary the loop reaches, the run not
having died earlier from a read error) makes the pipeline take the silent
early return: it renders neither the invalid-signature card nor the error
card for that run, whatever the validity result would have been. -/
theorem c8_cancel_checked_and_silent (abortFrom ioErrorAt : Option Nat)
    (chunks : List Nat) (sigValid : Bool) :
    (drainVerify abortFrom ioErrorAt 0 chunks = DrainResult.completed →
      ∀ k, k ≤ chunks.length → flagAt abortFrom k = false) ∧
    (∀ a, abortFrom = some a → a ≤ chunks.length →
      (∀ j, j < a → ioErrorAt ≠ some j) →
      detachedVerifyDisplay abortFrom ioErrorAt chunks sigValid = VerifyDisplay.silent) := by
  constructor
  · intro h k hk
    exact drainVerify_completed_no_flag abortFrom ioErrorAt chunks 0 h k (Nat.zero_le k)
      (by omega)
  · intro a ha hle hio
    subst ha
    have hd := drainVerify_aborted a ioErrorAt chunks 0 (by omega)
      (fun j _ hja => hio j hja)
    unfold detachedVerifyDisplay
    rw [hd]

/-- C8 witness: an abort flag set from the very first boundary of a
one-chunk run yields the silent display even though the signature would
have been invalid. -/
theorem c8_cancel_checked_and_silent_witness :
    detachedVerifyDisplay (some 0) none [7] false = VerifyDisplay.silent :=
  (c8_cancel_checked_and_silent (some 0) none [7] false).2 0 rfl (by decide)
    (fun j hj => absurd hj (Nat.not_lt_zero j))

theorem selectEntry_snd_mem (parsed : List (String × String)) (fileName calculated : String)
    (mf : Option String) (v : String)
    (hsel : selectEntry parsed fileName calculated = (mf, some v))
    (hmf : jsTruthy mf = true) :
    (mf.getD "", v) ∈ parsed := by
  unfold selectEntry at hsel
  by_cases hex : jsTruthy (lookupObj parsed fileName) = true
  · rw [if_pos hex] at hsel
    have hmf' : some fileName = mf := congrArg Prod.fst hsel
    have hv : lookupObj parsed fileName = some v := congrArg Prod.snd hsel
    subst hmf'
    unfold lookupObj at hv
    obtain ⟨pr, hfp, hpr2⟩ := Option.map_eq_some'.mp hv
    have hkey : pr.1 = fileName := by simpa using List.find?_some hfp
    have hmem := List.mem_of_find?_eq_some hfp
    have hout : ((some fileName).getD "", v) = pr := by
      obtain ⟨a, b⟩ := pr
      simp only [Option.getD_some, Prod.mk.injEq]
      exact ⟨hkey.symm, hpr2.symm⟩
    rw [hout]
    exact hmem
  · rw [if_neg hex] at hsel
    cases hfp : parsed.find? (fun p => p.2 == calculated) with
    | none =>
      rw [hfp] at hsel
      simp at hsel
    | some pr =>
      rw [hfp] at hsel
      have hmem := List.mem_of_find?_eq_some hfp
      have hmf' : some pr.1 = mf := congrArg Prod.fst hsel
      have hv : (some pr.2 : Option String) = some v := congrArg Prod.snd hsel
      subst hmf'
      have hv' : pr.2 = v := by simpa using hv
      have hout : ((some pr.1).getD "", v) = pr := by
        obtain ⟨a, b⟩ := pr
        simp only [Option.getD_some, Prod.mk.injEq, true_and]
        exact hv'.symm
      rw [hout]
      exact hmem

theorem classify_verified_eq (parsed : List (String × String)) (fileName calcHash fn h : String)
    (hcl : classifyChecksum parsed fileName calcHash = ChecksumOutcome.verified fn h) :
    h = calcHash ∧ (fn, calcHash) ∈ parsed := by
  unfold classifyChecksum at hcl
  rcases hsel : selectEntry parsed fileName calcHash with ⟨mf, eh⟩
  rw [hsel] at hcl
  by_cases hcond : (jsTruthy mf && eh == some calcHash) = true
  · rw [if_pos hcond] at hcl
    obtain ⟨hmf, heq⟩ := Bool.and_eq_true_iff.mp hcond
    have heh : eh = some calcHash := by simpa using heq
    subst heh
    obtain ⟨hfn, hh⟩ := ChecksumOutcome.verified.injEq .. ▸ hcl
    refine ⟨hh.symm, ?_⟩
    rw [← hfn]
    exact selectEntry_snd_mem parsed fileName calcHash mf calcHash hsel hmf
  · rw [if_neg hcond] at hcl
    by_cases hcond2 : (jsTruthy eh && eh != some calcHash) = true
    · rw [if_pos hcond2] at hcl
      cases hcl
    · rw [if_neg hcond2] at hcl
      cases hcl

/-- C9: every digest the verification queue computes is the SHA-256 of
the file content, a 64-character hex string, whatever algorithm the
loaded manifest's digest lengths imply (the engine never consults the
manifest when choosing the hash), and a CHECKSUM VERIFIED outcome can
only arise from a manifest entry whose stored digest is that 64-character
computed digest; consequently an entry whose digest has 32, 40 or 128
characters (MD5, SHA-1, SHA-512) can never produce a Verified outcome. -/
theorem c9_queue_hash_always_sha256 (parsed : List (String × String))
    (fileName : String) (content : List Nat) :
    (calculateFileHash content).length = 64 ∧
    ∀ fn h, classifyChecksum parsed fileName (calculateFileHash content) =
        ChecksumOutcome.verified fn h →
      h = calculateFileHash content ∧ h.length = 64 ∧ (fn, h) ∈ parsed := by
  refine ⟨calculateFileHash_length content, ?_⟩
  intro fn h hcl
  obtain ⟨hh, hmem⟩ := classify_verified_eq parsed fileName (calculateFileHash content) fn h hcl
  subst hh
  exact ⟨rfl, calculateFileHash_length content, hmem⟩

/-- C9 witness: on a concrete one-entry manifest holding the computed
digest itself, the computed digest has 64 characters and the verified
outcome points back to that entry. -/
theorem c9_queue_hash_always_sha256_witness :
    (calculateFileHash [48]).length = 64 ∧
    ("f.txt", calculateFileHash [48]) ∈ [("f.txt", calculateFileHash [48])] := by
  have hthm := c9_queue_hash_always_sha256 [("f.txt", calculateFileHash [48])] "f.txt" [48]
  have h2 := hthm.2 "f.txt" (calculateFileHash [48]) (by decide)
  exact ⟨hthm.1, h2.2.2⟩

theorem jsFindIndex_none_of_all {α} (p : α → Bool) :
    ∀ l : List α, (∀ x ∈ l, p x = false) → jsFindIndex p l = none := by
  intro l
  induction l with
  | nil => intro _; rfl
  | cons a rest ih =>
    intro hall
    have ha := hall a (List.mem_cons_self a rest)
    rw [jsFindIndex, ha]
    simp only [Bool.false_eq_true, if_false]
    rw [ih (fun x hx => hall x (List.mem_cons_of_mem a hx))]
    rfl

theorem jsFindIndex_append {α} (p : α → Bool) (a : α) (l2 : List α) (hpa : p a = true) :
    ∀ l1 : List α, (∀ x ∈ l1, p x = false) → jsFindIndex p (l1 ++ a :: l2) = some l1.length := by
  intro l1
  induction l1 with
  | nil =>
    intro _
    simp only [List.nil_append, List.length_nil]
    rw [jsFindIndex, hpa]
    rfl
  | cons b rest ih =>
    intro hall
    have hb := hall b (List.mem_cons_self b rest)
    rw [List.cons_append, jsFindIndex, hb]
    simp only [Bool.false_eq_true, if_false]
    rw [ih (fun x hx => hall x (List.mem_cons_of_mem b hx))]
    rfl

theorem setJobStatus_set_set :
    ∀ (q : List (String × JobStatus)) (i : Nat) (s t : JobStatus),
      setJobStatus (setJobStatus q i s) i t = setJobStatus q i t := by
  intro q
  induction q with
  | nil => intro i s t; rfl
  | cons j rest ih =>
    intro i s t
    cases i with
    | zero => rfl
    | succ n =>
      show j :: setJobStatus (setJobStatus rest n s) n t = j :: setJobStatus rest n t
      rw [ih]

theorem setJobStatus_append :
    ∀ (pre : List (String × JobStatus)) (a : String × JobStatus)
      (l : List (String × JobStatus)) (s : JobStatus),
      setJobStatus (pre ++ a :: l) pre.length s = pre ++ (a.1, s) :: l := by
  intro pre
  induction pre with
  | nil => intro a l s; rfl
  | cons b rest ih =>
    intro a l s
    show b :: setJobStatus (rest ++ a :: l) rest.length s = b :: (rest ++ (a.1, s) :: l)
    rw [ih]

set_option linter.unnecessarySeqFocus false in
set_option linter.unreachableTactic false in
set_option linter.unusedTactic false in
theorem countProcessing_setJobStatus_le :
    ∀ (q : List (String × JobStatus)) (i : Nat) (s : JobStatus),
      countProcessing (setJobStatus q i s) ≤ countProcessing q + 1 := by
  intro q
  induction q with
  | nil => intro i s; exact Nat.zero_le 1
  | cons j rest ih =>
    intro i s
    cases i with
    | zero =>
      show countProcessing ((j.1, s) :: rest) ≤ countProcessing (j :: rest) + 1
      unfold countProcessing
      rw [List.countP_cons, List.countP_cons]
      by_cases hs : ((j.1, s).2 == JobStatus.processing) = true <;>
        by_cases hj : (j.2 == JobStatus.processing) = true <;>
          simp [hs, hj] <;> omega
    | succ n =>
      show countProcessing (j :: setJobStatus rest n s) ≤ countProcessing (j :: rest) + 1
      unfold countProcessing
      rw [List.countP_cons, List.countP_cons]
      have := ih n s
      unfold countProcessing at this
      omega

theorem countProcessing_setJobStatus_nonproc :
    ∀ (q : List (String × JobStatus)) (i : Nat) (s : JobStatus),
      (s == JobStatus.processing) = false →
      countProcessing (setJobStatus q i s) ≤ countProcessing q := by
  intro q
  induction q with
  | nil => intro i s _; exact Nat.le_refl 0
  | cons j rest ih =>
    intro i s hs
    cases i with
    | zero =>
      show countProcessing ((j.1, s) :: rest) ≤ countProcessing (j :: rest)
      unfold countProcessing
      rw [List.countP_cons, List.countP_cons]
      simp only [hs]
      by_cases hj : (j.2 == JobStatus.processing) = true <;> simp [hj]
    | succ n =>
      show countProcessing (j :: setJobStatus rest n s) ≤ countProcessing (j :: rest)
      unfold countProcessing
      rw [List.countP_cons, List.countP_cons]
      have := ih n s hs
      unfold countProcessing at this
      omega

theorem countProcessing_pending_map (files : List String) :
    countProcessing (files.map (fun f => (f, JobStatus.pending))) = 0 := by
  induction files with
  | nil => rfl
  | cons f rest ih =>
    unfold countProcessing at ih ⊢
    rw [List.map_cons, List.countP_cons]
    simp [ih]

theorem trace_procCount_le_one :
    ∀ (fuel : Nat) (outs : List Bool) (q : List (String × JobStatus)),
      countProcessing q = 0 →
      ∀ s ∈ processQueueTrace fuel outs q, countProcessing s ≤ 1 := by
  intro fuel
  induction fuel with
  | zero => intro outs q _ s hs; cases hs
  | succ k ih =>
    intro outs q hq s hs
    rw [processQueueTrace] at hs
    cases hfi : jsFindIndex isPending q with
    | none => rw [hfi] at hs; cases hs
    | some i =>
      rw [hfi] at hs
      simp only [List.mem_cons] at hs
      have hq2eq : setJobStatus (setJobStatus q i JobStatus.processing) i
          (if outs.headD true then JobStatus.completed else JobStatus.error) =
          setJobStatus q i
            (if outs.headD true then JobStatus.completed else JobStatus.error) :=
        setJobStatus_set_set q i JobStatus.processing _
      have hq2count : countProcessing
          (setJobStatus (setJobStatus q i JobStatus.processing) i
            (if outs.headD true then JobStatus.completed else JobStatus.error)) = 0 := by
        rw [hq2eq]
        have hle := countProcessing_setJobStatus_nonproc q i
          (if outs.headD true then JobStatus.completed else JobStatus.error)
          (by cases houts : outs.headD true <;> simp [houts])
        omega
      rcases hs with hs | hs | hs
      · subst hs
        have := countProcessing_setJobStatus_le q i JobStatus.processing
        omega
      · subst hs
        rw [hq2count]
        exact Nat.zero_le 1
      · exact ih outs.tail _ hq2count s hs

theorem processedOrder_fifo :
    ∀ (names : List String) (fuel : Nat) (outs : List Bool)
      (pre : List (String × JobStatus)),
      (∀ j ∈ pre, isPending j = false) → names.length ≤ fuel →
      processedOrder fuel outs (pre ++ names.map (fun f => (f, JobStatus.pending))) =
        List.range' pre.length names.length := by
  intro names
  induction names with
  | nil =>
    intro fuel outs pre hpre _
    simp only [List.map_nil, List.append_nil, List.range']
    cases fuel with
    | zero => rfl
    | succ k =>
      rw [processedOrder, jsFindIndex_none_of_all isPending pre hpre]
  | cons f fs ih =>
    intro fuel outs pre hpre hfuel
    cases fuel with
    | zero => simp at hfuel
    | succ k =>
      rw [List.map_cons, processedOrder,
        jsFindIndex_append isPending (f, JobStatus.pending)
          (fs.map (fun g => (g, JobStatus.pending))) rfl pre hpre]
      dsimp only
      rw [setJobStatus_set_set, setJobStatus_append]
      have hpre' : ∀ j ∈ pre ++ [((f, JobStatus.pending).1,
          if outs.headD true then JobStatus.completed else JobStatus.error)],
          isPending j = false := by
        intro j hj
        rcases List.mem_append.mp hj with hj | hj
        · exact hpre j hj
        · rcases List.mem_singleton.mp hj with rfl
          cases houts : outs.headD true <;> simp [houts, isPending]
      have hstep := ih k outs.tail
        (pre ++ [((f, JobStatus.pending).1,
          if outs.headD true then JobStatus.completed else JobStatus.error)])
        hpre' (by simpa using hfuel)
      rw [List.append_assoc] at hstep
      simp only [List.singleton_append] at hstep
      rw [hstep]
      simp only [List.length_append, List.length_singleton, List.length_cons]
      rw [List.range'_succ]
      simp

theorem upload_accepted_length (parsed : List (String × String))
    (queue : List (String × JobStatus)) (files : List String) (confirm : Bool) :
    (handleChecksumFileUpload parsed queue files confirm).accepted = true →
    (handleChecksumFileUpload parsed queue files confirm).queue.length =
      queue.length + files.length := by
  unfold handleChecksumFileUpload
  dsimp only
  split
  · intro h; simp at h
  · split
    · intro h; simp at h
    · split
      · split
        · intro _
          simp [List.length_append]
        · intro h; simp at h
      · intro _
        simp [List.length_append]

/-- C7: enqueuing a batch of N files appends exactly N pending jobs to
the queue (whenever the upload is accepted at all), the processQueue loop
never has two jobs in the processing state at the same instant (every
state in its trace contains at most one processing entry, a fresh batch
starting with none), and the jobs of a fresh batch are processed in
strict FIFO submission order: the processed indices are exactly
0, 1, ..., N-1, each job reaching completed or error before the next
leaves pending. -/
theorem c7_queue_discipline (parsed : List (String × String))
    (queue0 : List (String × JobStatus)) (files : List String) (confirm : Bool)
    (outs : List Bool) (fuel : Nat) (hfuel : files.length ≤ fuel) :
    ((handleChecksumFileUpload parsed queue0 files confirm).accepted = true →
      (handleChecksumFileUpload parsed queue0 files confirm).queue.length =
        queue0.length + files.length) ∧
    (∀ s ∈ processQueueTrace fuel outs (files.map (fun f => (f, JobStatus.pending))),
      countProcessing s ≤ 1) ∧
    processedOrder fuel outs (files.map (fun f => (f, JobStatus.pending))) =
      List.range files.length := by
  refine ⟨upload_accepted_length parsed queue0 files confirm, ?_, ?_⟩
  · exact trace_procCount_le_one fuel outs _ (countProcessing_pending_map files)
  · have h := processedOrder_fifo files fuel outs [] (by intro j hj; cases hj) hfuel
    simpa [List.range_eq_range'] using h

/-- C7 witness: a fresh two-file batch is processed in order 0 then 1. -/
theorem c7_queue_discipline_witness :
    processedOrder 2 [] (["a", "b"].map (fun f => (f, JobStatus.pending))) =
      List.range 2 :=
  (c7_queue_discipline [("a", "h")] [] ["a", "b"] true [] 2 (by decide)).2.2

end GpgVerifier
